import Mathlib

/-!
Verification of the sliding-window rate limiter of tranmanhdat/simple_search_API.

The component under study is the in-memory per-client rate limiter. Two
variants exist in the repository:

* `src/api/rate_limit_custom/rate_limit.py` — class `RateLimiter` with an
  inline periodic sweep (`_cleanup_old_entries`, gated by 300 elapsed
  seconds since `last_cleanup`), and a module-level dependency
  `check_rate_limit` raising HTTP 429 on rejection;
* `src/app/main.py` — class `RateLimiter` without the inline sweep
  (its `cleanup_old_entries` is never called from `is_allowed`).

Modelling choices (faithful to the Python source):

* Timestamps (`datetime.now()`) are modelled as integers counting seconds;
  `timedelta(minutes=1)` is the constant `windowDuration = 60`, the sweep
  gate of `300` seconds is `sweepInterval`.  Each call to `is_allowed`
  receives its `now` as an explicit parameter; the fresh `datetime.now()`
  taken inside `_cleanup_old_entries` is modelled as the same instant as
  the caller's `now` (the two differ only by the microseconds the
  interpreter needs to reach the inner call).
* `self.requests`, a `defaultdict(list)` mapping an IP string to a list of
  timestamps, is modelled as a total function `String → Option (List Int)`:
  `none` means the key is absent from the dict, `some l` that it is present
  with timestamp list `l`.  Reading a missing key through the defaultdict
  inserts `some []`; `del` sets the key back to `none`.  Dict insertion
  order is not modelled: no property considered here observes it.
-/

/-- One minute, the fixed trailing-window duration, in seconds
(`timedelta(minutes=1)` in the source). -/
def windowDuration : Int := 60

/-- Five minutes, the sweep gate, in seconds (`> 300` in the source). -/
def sweepInterval : Int := 300

/-- The `self.requests` dictionary: IP string to list of timestamps;
`none` models absence of the key from the Python dict. -/
def ReqMap : Type := String → Option (List Int)

/-- Dictionary write `m[k] = v` (also the net effect of the defaultdict
read-then-assign idiom `self.requests[ip] = [...]`). -/
def setItem (m : ReqMap) (k : String) (v : List Int) : ReqMap :=
  fun k' => if k' = k then some v else m k'

/-- The value `self.requests[k]` observed through the defaultdict: the
stored list when the key is present, `[]` otherwise. -/
def getLogM (m : ReqMap) (k : String) : List Int :=
  (m k).getD []

/-- The list comprehension
`[timestamp for timestamp in log if timestamp > one_minute_ago]`
with `one_minute_ago = now - windowDuration`. -/
def pruneLog (now : Int) (log : List Int) : List Int :=
  log.filter (fun ts => decide (now - windowDuration < ts))

/-- Effect of `_cleanup_old_entries` (rate_limit.py lines 38-52) on the
dictionary: every present key's list is pruned against the current window,
and keys whose pruned list is empty are deleted.  The Python loop first
reassigns `self.requests[ip]` to the pruned list for every key of a
snapshot of the items, then deletes the keys collected as empty; per key
the composite effect is exactly this. -/
def cleanup_old_entries (now : Int) (m : ReqMap) : ReqMap :=
  fun k =>
    match m k with
    | none => none
    | some l => if pruneLog now l = [] then none else some (pruneLog now l)

/-- State of class `RateLimiter` in `src/api/rate_limit_custom/rate_limit.py`:
`max_requests`, the `requests` dict and `last_cleanup`. -/
structure RateLimiter where
  max_requests : Nat
  requests : ReqMap
  last_cleanup : Int

/-- `RateLimiter.__init__(max_requests)`: empty dict, `last_cleanup`
set to the construction instant. -/
def initLimiter (max_requests : Nat) (now : Int) : RateLimiter :=
  ⟨max_requests, fun _ => none, now⟩

/-- `RateLimiter.is_allowed(client_ip)` of rate_limit.py, lines 14-36,
evaluated at instant `now`:
1. prune the client's log against `one_minute_ago = now - windowDuration`
   and store it back (defaultdict read inserts the key if missing, the
   assignment overwrites it);
2. if more than `sweepInterval` seconds elapsed since `last_cleanup`, run
   `_cleanup_old_entries` and set `last_cleanup = now`;
3. read `self.requests[client_ip]` again (the defaultdict re-inserts `[]`
   if the sweep deleted the key); if its length is `>= max_requests`
   return `False` without appending;
4. otherwise append `now` and return `True`. -/
def is_allowed (rl : RateLimiter) (client_ip : String) (now : Int) :
    Bool × RateLimiter :=
  let pruned := pruneLog now (getLogM rl.requests client_ip)
  let m1 := setItem rl.requests client_ip pruned
  let s2 := if sweepInterval < now - rl.last_cleanup
            then (cleanup_old_entries now m1, now)
            else (m1, rl.last_cleanup)
  let cur := getLogM s2.1 client_ip
  let m3 := setItem s2.1 client_ip cur
  if rl.max_requests ≤ cur.length then
    (false, ⟨rl.max_requests, m3, s2.2⟩)
  else
    (true, ⟨rl.max_requests, setItem m3 client_ip (cur ++ [now]), s2.2⟩)

/-- The log currently stored for key `k` (empty when the key is absent). -/
def RateLimiter.log (rl : RateLimiter) (k : String) : List Int :=
  getLogM rl.requests k

/-- State of class `RateLimiter` in `src/app/main.py` (the variant without
the inline sweep: no `last_cleanup` field is ever consulted by
`is_allowed`). -/
structure RateLimiterNS where
  max_requests : Nat
  requests : ReqMap

/-- `RateLimiter.is_allowed(client_ip)` of main.py, lines 29-46: prune and
store back, length check, append — identical to the rate_limit.py variant
minus the periodic cleanup step. -/
def is_allowed_ns (rl : RateLimiterNS) (client_ip : String) (now : Int) :
    Bool × RateLimiterNS :=
  let pruned := pruneLog now (getLogM rl.requests client_ip)
  let m1 := setItem rl.requests client_ip pruned
  if rl.max_requests ≤ pruned.length then
    (false, ⟨rl.max_requests, m1⟩)
  else
    (true, ⟨rl.max_requests, setItem m1 client_ip (pruned ++ [now])⟩)

/-- Key derivation in `check_rate_limit`:
`client_ip = request.client.host if request.client else "unknown"`.
The request's transport-level client is modelled as an optional host
string (`none` when `request.client` is `None`). -/
def deriveClientKey (client : Option String) : String :=
  match client with
  | some host => host
  | none => "unknown"

/-- `check_rate_limit(request)` (rate_limit.py lines 58-67): derive the
client key, consult the guard; on rejection raise HTTP 429 (modelled as
`Except.error 429`), otherwise continue with the mutated limiter state. -/
def check_rate_limit (rl : RateLimiter) (client : Option String) (now : Int) :
    Except Nat RateLimiter :=
  let r := is_allowed rl (deriveClientKey client) now
  if r.1 then Except.ok r.2 else Except.error 429

/-- Run a sequence of sequential `is_allowed` calls (key, instant) against
the rate_limit.py limiter, collecting the decisions. -/
def runTrace (rl : RateLimiter) : List (String × Int) → List Bool × RateLimiter
  | [] => ([], rl)
  | (k, t) :: rest =>
    let r := is_allowed rl k t
    let res := runTrace r.2 rest
    (r.1 :: res.1, res.2)

/-- Run a sequence of sequential `is_allowed` calls against the main.py
limiter, collecting the decisions. -/
def runTraceNS (rl : RateLimiterNS) : List (String × Int) → List Bool × RateLimiterNS
  | [] => ([], rl)
  | (k, t) :: rest =>
    let r := is_allowed_ns rl k t
    let res := runTraceNS r.2 rest
    (r.1 :: res.1, res.2)

/-! ### Basic lemmas about the map and the prune -/

theorem getLogM_setItem_same (m : ReqMap) (k : String) (v : List Int) :
    getLogM (setItem m k v) k = v := by
  simp [getLogM, setItem]

theorem setItem_other (m : ReqMap) (k k' : String) (v : List Int)
    (h : k' ≠ k) : setItem m k v k' = m k' := by
  simp [setItem, h]

theorem pruneLog_nil (t : Int) : pruneLog t [] = [] := rfl

theorem length_pruneLog_le (t : Int) (l : List Int) :
    (pruneLog t l).length ≤ l.length :=
  List.length_filter_le _ _

theorem mem_pruneLog (t ts : Int) (l : List Int) :
    ts ∈ pruneLog t l ↔ ts ∈ l ∧ t - windowDuration < ts := by
  simp [pruneLog]

theorem pruneLog_pruneLog {t t' : Int} (h : t ≤ t') (l : List Int) :
    pruneLog t' (pruneLog t l) = pruneLog t' l := by
  unfold pruneLog
  rw [List.filter_filter]
  apply List.filter_congr
  intro a _
  by_cases h2 : t' - windowDuration < a
  · have h1 : t - windowDuration < a := by omega
    simp [h1, h2]
  · simp [h2]

theorem pruneLog_idem (t : Int) (l : List Int) :
    pruneLog t (pruneLog t l) = pruneLog t l :=
  pruneLog_pruneLog le_rfl l

theorem countP_pruneLog {t E : Int} (h : t ≤ E) (l : List Int) :
    (pruneLog t l).countP (fun x => decide (E - windowDuration < x))
      = l.countP (fun x => decide (E - windowDuration < x)) := by
  unfold pruneLog
  rw [List.countP_filter]
  apply List.countP_congr
  intro a _
  by_cases h2 : E - windowDuration < a
  · have h1 : t - windowDuration < a := by omega
    simp [h1, h2]
  · simp [h2]

theorem countP_le_length (p : Int → Bool) (l : List Int) :
    l.countP p ≤ l.length :=
  List.countP_le_length p

theorem cleanup_getLogM (t : Int) (m : ReqMap) (k : String) :
    getLogM (cleanup_old_entries t m) k = pruneLog t (getLogM m k) := by
  simp only [cleanup_old_entries, getLogM]
  cases m k with
  | none => simp [pruneLog]
  | some l =>
    by_cases he : pruneLog t l = []
    · simp [he]
    · simp [he]

/-! ### Characterization of one `is_allowed` call

The current count `cur` consulted by the length check always equals the
prune of the client's stored log, whether or not the periodic cleanup ran
in between: the cleanup re-prunes the freshly pruned list (idempotent) and
its possible deletion of the now-empty key is cancelled by the defaultdict
read that follows. -/

theorem is_allowed_fst (rl : RateLimiter) (k : String) (now : Int) :
    (is_allowed rl k now).1
      = decide ((pruneLog now (rl.log k)).length < rl.max_requests) := by
  by_cases hsw : sweepInterval < now - rl.last_cleanup
  · simp only [is_allowed, RateLimiter.log, if_pos hsw]
    rw [cleanup_getLogM, getLogM_setItem_same, pruneLog_idem]
    by_cases hlen : rl.max_requests ≤ (pruneLog now (getLogM rl.requests k)).length
    · have h2 : ¬ (pruneLog now (getLogM rl.requests k)).length < rl.max_requests :=
        Nat.not_lt.2 hlen
      simp [hlen, h2]
    · have h2 : (pruneLog now (getLogM rl.requests k)).length < rl.max_requests :=
        Nat.lt_of_not_le hlen
      simp [hlen, h2]
  · simp only [is_allowed, RateLimiter.log, if_neg hsw]
    rw [getLogM_setItem_same]
    by_cases hlen : rl.max_requests ≤ (pruneLog now (getLogM rl.requests k)).length
    · have h2 : ¬ (pruneLog now (getLogM rl.requests k)).length < rl.max_requests :=
        Nat.not_lt.2 hlen
      simp [hlen, h2]
    · have h2 : (pruneLog now (getLogM rl.requests k)).length < rl.max_requests :=
        Nat.lt_of_not_le hlen
      simp [hlen, h2]

theorem is_allowed_log_self (rl : RateLimiter) (k : String) (now : Int) :
    (is_allowed rl k now).2.log k
      = (if (pruneLog now (rl.log k)).length < rl.max_requests
         then pruneLog now (rl.log k) ++ [now]
         else pruneLog now (rl.log k)) := by
  by_cases hsw : sweepInterval < now - rl.last_cleanup
  · simp only [is_allowed, RateLimiter.log, if_pos hsw]
    rw [cleanup_getLogM, getLogM_setItem_same, pruneLog_idem]
    by_cases hlen : rl.max_requests ≤ (pruneLog now (getLogM rl.requests k)).length
    · have h2 : ¬ (pruneLog now (getLogM rl.requests k)).length < rl.max_requests :=
        Nat.not_lt.2 hlen
      simp [hlen, h2, RateLimiter.log, getLogM_setItem_same]
    · have h2 : (pruneLog now (getLogM rl.requests k)).length < rl.max_requests :=
        Nat.lt_of_not_le hlen
      simp [hlen, h2, RateLimiter.log, getLogM_setItem_same]
  · simp only [is_allowed, RateLimiter.log, if_neg hsw]
    rw [getLogM_setItem_same]
    by_cases hlen : rl.max_requests ≤ (pruneLog now (getLogM rl.requests k)).length
    · have h2 : ¬ (pruneLog now (getLogM rl.requests k)).length < rl.max_requests :=
        Nat.not_lt.2 hlen
      simp [hlen, h2, RateLimiter.log, getLogM_setItem_same]
    · have h2 : (pruneLog now (getLogM rl.requests k)).length < rl.max_requests :=
        Nat.lt_of_not_le hlen
      simp [hlen, h2, RateLimiter.log, getLogM_setItem_same]

theorem is_allowed_max (rl : RateLimiter) (k : String) (now : Int) :
    (is_allowed rl k now).2.max_requests = rl.max_requests := by
  simp only [is_allowed]
  split <;> split <;> rfl

theorem is_allowed_last_cleanup (rl : RateLimiter) (k : String) (now : Int) :
    (is_allowed rl k now).2.last_cleanup
      = (if sweepInterval < now - rl.last_cleanup then now else rl.last_cleanup) := by
  by_cases hsw : sweepInterval < now - rl.last_cleanup
  · simp only [is_allowed, if_pos hsw]
    split <;> rfl
  · simp only [is_allowed, if_neg hsw]
    split <;> rfl

theorem is_allowed_requests_other (rl : RateLimiter) (k k' : String) (now : Int)
    (h : k' ≠ k) :
    (is_allowed rl k now).2.requests k'
      = (if sweepInterval < now - rl.last_cleanup
         then cleanup_old_entries now rl.requests k'
         else rl.requests k') := by
  by_cases hsw : sweepInterval < now - rl.last_cleanup
  · simp only [is_allowed, if_pos hsw]
    have hclean : cleanup_old_entries now
        (setItem rl.requests k (pruneLog now (getLogM rl.requests k))) k'
        = cleanup_old_entries now rl.requests k' := by
      simp only [cleanup_old_entries, setItem_other _ _ _ _ h]
    split <;> simp [setItem_other _ _ _ _ h, hclean]
  · simp only [is_allowed, if_neg hsw]
    split <;> simp [setItem_other _ _ _ _ h]

theorem is_allowed_log_other (rl : RateLimiter) (k k' : String) (now : Int)
    (h : k' ≠ k) :
    getLogM (is_allowed rl k now).2.requests k' = getLogM rl.requests k'
    ∨ getLogM (is_allowed rl k now).2.requests k'
        = pruneLog now (getLogM rl.requests k') := by
  have h1 := is_allowed_requests_other rl k k' now h
  by_cases hsw : sweepInterval < now - rl.last_cleanup
  · right
    rw [if_pos hsw] at h1
    have h2 : getLogM (is_allowed rl k now).2.requests k'
        = getLogM (cleanup_old_entries now rl.requests) k' := by
      unfold getLogM
      rw [h1]
    rw [h2, cleanup_getLogM]
  · left
    rw [if_neg hsw] at h1
    unfold getLogM
    rw [h1]

theorem is_allowed_ns_fst (rl : RateLimiterNS) (k : String) (now : Int) :
    (is_allowed_ns rl k now).1
      = decide ((pruneLog now (getLogM rl.requests k)).length < rl.max_requests) := by
  simp only [is_allowed_ns]
  by_cases hlen : rl.max_requests ≤ (pruneLog now (getLogM rl.requests k)).length
  · have h2 : ¬ (pruneLog now (getLogM rl.requests k)).length < rl.max_requests :=
      Nat.not_lt.2 hlen
    simp [hlen, h2]
  · have h2 : (pruneLog now (getLogM rl.requests k)).length < rl.max_requests :=
      Nat.lt_of_not_le hlen
    simp [hlen, h2]

theorem is_allowed_ns_log_self (rl : RateLimiterNS) (k : String) (now : Int) :
    getLogM (is_allowed_ns rl k now).2.requests k
      = (if (pruneLog now (getLogM rl.requests k)).length < rl.max_requests
         then pruneLog now (getLogM rl.requests k) ++ [now]
         else pruneLog now (getLogM rl.requests k)) := by
  simp only [is_allowed_ns]
  by_cases hlen : rl.max_requests ≤ (pruneLog now (getLogM rl.requests k)).length
  · have h2 : ¬ (pruneLog now (getLogM rl.requests k)).length < rl.max_requests :=
      Nat.not_lt.2 hlen
    simp [hlen, h2, getLogM_setItem_same]
  · have h2 : (pruneLog now (getLogM rl.requests k)).length < rl.max_requests :=
      Nat.lt_of_not_le hlen
    simp [hlen, h2, getLogM_setItem_same]

theorem is_allowed_ns_max (rl : RateLimiterNS) (k : String) (now : Int) :
    (is_allowed_ns rl k now).2.max_requests = rl.max_requests := by
  simp only [is_allowed_ns]
  split <;> rfl

theorem is_allowed_ns_requests_other (rl : RateLimiterNS) (k k' : String)
    (now : Int) (h : k' ≠ k) :
    (is_allowed_ns rl k now).2.requests k' = rl.requests k' := by
  simp only [is_allowed_ns]
  split <;> simp [setItem_other _ _ _ _ h]

/-- Number of `Admitted` decisions in a decision list. -/
def countTrue : List Bool → Nat
  | [] => 0
  | b :: bs => (if b then 1 else 0) + countTrue bs

theorem runTrace_max (trace : List (String × Int)) :
    ∀ rl : RateLimiter, (runTrace rl trace).2.max_requests = rl.max_requests := by
  induction trace with
  | nil => intro rl; rfl
  | cons p rest ih =>
    intro rl
    obtain ⟨k, t⟩ := p
    simp only [runTrace]
    rw [ih, is_allowed_max]

/-! ### Quota bound

Core counting argument: along a sequence of checks for one key whose
instants all lie in the half-open trailing window `(E - windowDuration, E]`,
every previously admitted timestamp survives every prune performed by the
sequence, so the log's count of in-window entries never drops and each
admission strictly increases it while it is below `max_requests`. -/

theorem quota_aux (k : String) (E : Int) (ts : List Int) :
    ∀ s : RateLimiter,
      (∀ t ∈ ts, E - windowDuration < t ∧ t ≤ E) →
      countTrue (runTrace s (ts.map (fun t => (k, t)))).1
        + (s.log k).countP (fun x => decide (E - windowDuration < x))
      ≤ max s.max_requests
          ((s.log k).countP (fun x => decide (E - windowDuration < x))) := by
  induction ts with
  | nil =>
    intro s _
    simp [runTrace, countTrue, Nat.le_max_right]
  | cons t ts ih =>
    intro s h
    obtain ⟨ht1, ht2⟩ := h t (List.mem_cons_self _ _)
    have hrest : ∀ x ∈ ts, E - windowDuration < x ∧ x ≤ E :=
      fun x hx => h x (List.mem_cons_of_mem _ hx)
    simp only [List.map_cons, runTrace, countTrue]
    have hmax : (is_allowed s k t).2.max_requests = s.max_requests :=
      is_allowed_max s k t
    have hfst := is_allowed_fst s k t
    have hlog := is_allowed_log_self s k t
    have hcnt : (pruneLog t (s.log k)).countP (fun x => decide (E - windowDuration < x))
        = (s.log k).countP (fun x => decide (E - windowDuration < x)) :=
      countP_pruneLog ht2 _
    have hc := ih (is_allowed s k t).2 hrest
    rw [hmax] at hc
    by_cases hadm : (pruneLog t (s.log k)).length < s.max_requests
    · have hb : (is_allowed s k t).1 = true := by rw [hfst]; simp [hadm]
      have hlog' : (is_allowed s k t).2.log k = pruneLog t (s.log k) ++ [t] := by
        rw [hlog, if_pos hadm]
      have hc' : ((is_allowed s k t).2.log k).countP
            (fun x => decide (E - windowDuration < x))
          = (s.log k).countP (fun x => decide (E - windowDuration < x)) + 1 := by
        rw [hlog', List.countP_append, hcnt]
        simp [List.countP_cons, ht1]
      have hlt : (s.log k).countP (fun x => decide (E - windowDuration < x))
          < s.max_requests := by
        calc (s.log k).countP (fun x => decide (E - windowDuration < x))
            = (pruneLog t (s.log k)).countP (fun x => decide (E - windowDuration < x)) :=
              hcnt.symm
          _ ≤ (pruneLog t (s.log k)).length := countP_le_length _ _
          _ < s.max_requests := hadm
      rw [hc'] at hc
      rw [hb]
      have hmx1 : max s.max_requests
          ((s.log k).countP (fun x => decide (E - windowDuration < x)) + 1)
          = s.max_requests := Nat.max_eq_left hlt
      have hmx2 : max s.max_requests
          ((s.log k).countP (fun x => decide (E - windowDuration < x)))
          = s.max_requests := Nat.max_eq_left (Nat.le_of_lt hlt)
      rw [hmx1] at hc
      rw [hmx2]
      have hone : (if (true : Bool) = true then (1 : Nat) else 0) = 1 := by simp
      rw [hone]
      omega
    · have hb : (is_allowed s k t).1 = false := by rw [hfst]; simp [hadm]
      have hlog' : (is_allowed s k t).2.log k = pruneLog t (s.log k) := by
        rw [hlog, if_neg hadm]
      have hc' : ((is_allowed s k t).2.log k).countP
            (fun x => decide (E - windowDuration < x))
          = (s.log k).countP (fun x => decide (E - windowDuration < x)) := by
        rw [hlog', hcnt]
      rw [hc'] at hc
      rw [hb]
      simpa using hc

/-! ### Claim theorems -/

/-- C1, counterexample to the claim as stated.  The spec's trailing window
is the closed interval from `E - windowDuration` to `E` (glossary: the
interval from `now - windowDuration` to `now`).  With `max_requests = 1`,
two sequential checks for key `"k"` at instants `0` and `60` both lie in
the closed trailing window ending at `E = 60` of duration `windowDuration`,
yet both are Admitted: the code prunes with a strict comparison, so the
entry at `0` has already left the window at instant `60`.  The number of
Admitted results is `max_requests + 1`. -/
theorem C1_quota_bound_cex :
    ((60 : Int) - windowDuration ≤ 0 ∧ (0 : Int) ≤ 60
      ∧ (60 : Int) - windowDuration ≤ 60 ∧ (60 : Int) ≤ 60)
    ∧ countTrue (runTrace (initLimiter 1 0) [("k", 0), ("k", 60)]).1
        = (initLimiter 1 0).max_requests + 1 := by decide

/-- C1, amended: for every fixed client key and every sequence of
sequential `is_allowed` calls whose instants all fall within a single
trailing window of duration `windowDuration` that is OPEN at its left end
— all instants `t` satisfy `E - windowDuration < t` and `t ≤ E` — the
number of Admitted results never exceeds `max_requests` (from any starting
state).  At the closed left boundary the bound can be exceeded by one,
as the counterexample shows, because the prune drops a timestamp exactly
`windowDuration` old. -/
theorem C1_quota_bound (s : RateLimiter) (k : String) (ts : List Int) (E : Int)
    (h : ∀ t ∈ ts, E - windowDuration < t ∧ t ≤ E) :
    countTrue (runTrace s (ts.map (fun t => (k, t)))).1 ≤ s.max_requests := by
  have hq := quota_aux k E ts s h
  rcases Nat.le_total
      ((s.log k).countP (fun x => decide (E - windowDuration < x)))
      s.max_requests with hle | hle
  · rw [Nat.max_eq_left hle] at hq
    omega
  · rw [Nat.max_eq_right hle] at hq
    omega

/-- C1, witness: four calls at instants 0,1,2,3 (inside the half-open
window ending at 3) against a fresh limiter with `max_requests = 3` admit
at most 3 requests. -/
theorem C1_quota_bound_witness :
    (∀ t ∈ [(0 : Int), 1, 2, 3], (3 : Int) - windowDuration < t ∧ t ≤ 3)
    ∧ countTrue (runTrace (initLimiter 3 0)
        ([(0 : Int), 1, 2, 3].map (fun t => ("1.2.3.4", t)))).1
      ≤ (initLimiter 3 0).max_requests :=
  ⟨by decide, C1_quota_bound (initLimiter 3 0) "1.2.3.4" [0, 1, 2, 3] 3 (by decide)⟩

/-- C3: with `max_requests = 3` and `windowDuration = 60`, checks for key
`"1.1.1.1"` at instants 0, 1, 2 are Admitted, the 4th at instant 3 is
Rejected, and the 5th at instant 61 is Admitted again (the oldest entries
have fallen out of the window). -/
theorem C3_concrete_scenario :
    (runTrace (initLimiter 3 0)
      [("1.1.1.1", 0), ("1.1.1.1", 1), ("1.1.1.1", 2), ("1.1.1.1", 3),
       ("1.1.1.1", 61)]).1 = [true, true, true, false, true] := by decide

/-- C4, counterexample to the claim as stated: a timestamp exactly equal to
`windowStart = now - windowDuration` is REMOVED by the prune, not retained.
With `now = 60` the timestamp `0` equals `windowStart` yet the pruned log
is empty — the code keeps only `timestamp > one_minute_ago`, a strict
comparison. -/
theorem C4_prune_boundary_cex :
    pruneLog 60 [0] = [] ∧ (0 : Int) = 60 - windowDuration := by decide

/-- C4, amended: the prune retains exactly the timestamps STRICTLY greater
than `windowStart = now - windowDuration` (a timestamp equal to
`windowStart` is removed), and consequently every timestamp in a key's log
after a check is strictly inside the window: it is either a retained old
timestamp or the newly appended `now`. -/
theorem C4_prune_boundary (rl : RateLimiter) (k : String) (now ts : Int) :
    (ts ∈ pruneLog now (rl.log k) ↔ ts ∈ rl.log k ∧ now - windowDuration < ts)
    ∧ (ts ∈ (is_allowed rl k now).2.log k →
        (ts ∈ rl.log k ∨ ts = now) ∧ now - windowDuration < ts) := by
  constructor
  · exact mem_pruneLog now ts (rl.log k)
  · intro hts
    rw [is_allowed_log_self] at hts
    by_cases hadm : (pruneLog now (rl.log k)).length < rl.max_requests
    · rw [if_pos hadm] at hts
      rcases List.mem_append.1 hts with hin | hnow
      · have hm := (mem_pruneLog now ts (rl.log k)).1 hin
        exact ⟨Or.inl hm.1, hm.2⟩
      · have heq : ts = now := List.mem_singleton.1 hnow
        have hwd : windowDuration = 60 := rfl
        exact ⟨Or.inr heq, by omega⟩
    · rw [if_neg hadm] at hts
      have hm := (mem_pruneLog now ts (rl.log k)).1 hts
      exact ⟨Or.inl hm.1, hm.2⟩

/-- C4, witness: in the state holding log `[50]` for key `"a"`, a check at
instant 60 retains 50 (strictly inside the window) and appends 60; the
membership consequence holds at the concrete timestamp 50. -/
theorem C4_prune_boundary_witness :
    ((50 : Int) ∈ (is_allowed ⟨3, fun x => if x = "a" then some [50] else none, 0⟩ "a" 60).2.log "a")
    ∧ (((50 : Int) ∈ RateLimiter.log ⟨3, fun x => if x = "a" then some [50] else none, 0⟩ "a"
          ∨ (50 : Int) = 60)
        ∧ (60 : Int) - windowDuration < 50) :=
  ⟨by decide,
   (C4_prune_boundary ⟨3, fun x => if x = "a" then some [50] else none, 0⟩ "a" 60 50).2 (by decide)⟩

/-! ### Rejected requests do not count -/

theorem runTrace_append (l1 l2 : List (String × Int)) :
    ∀ s : RateLimiter,
      (runTrace s (l1 ++ l2)).1
        = (runTrace s l1).1 ++ (runTrace (runTrace s l1).2 l2).1
      ∧ (runTrace s (l1 ++ l2)).2 = (runTrace (runTrace s l1).2 l2).2 := by
  induction l1 with
  | nil => intro s; simp [runTrace]
  | cons p rest ih =>
    intro s
    obtain ⟨k, t⟩ := p
    simp only [List.cons_append, List.append_eq, runTrace]
    have h := ih (is_allowed s k t).2
    exact ⟨by rw [h.1], h.2⟩

theorem pruneLog_eq_self {t : Int} {l : List Int}
    (h : ∀ a ∈ l, t - windowDuration < a) : pruneLog t l = l := by
  induction l with
  | nil => rfl
  | cons a l ih =>
    have h1 : t - windowDuration < a := h a (List.mem_cons_self _ _)
    have h2 := ih (fun x hx => h x (List.mem_cons_of_mem _ hx))
    simp only [pruneLog, List.filter_cons] at h2 ⊢
    simp [h1, h2]

theorem pruneLog_eq_nil {t : Int} {l : List Int}
    (h : ∀ a ∈ l, a ≤ t - windowDuration) : pruneLog t l = [] := by
  induction l with
  | nil => rfl
  | cons a l ih =>
    have h1 : ¬ t - windowDuration < a := not_lt.2 (h a (List.mem_cons_self _ _))
    have h2 := ih (fun x hx => h x (List.mem_cons_of_mem _ hx))
    simp only [pruneLog, List.filter_cons] at h2 ⊢
    simp [h1, h2]

/-- Admit phase: starting with the already-admitted timestamps `done` in
key `k`'s log and capacity for all of `done ++ as`, every call of `as` is
Admitted and the log ends as `done ++ as` (all instants sit in the
half-open window ending at `T`, so no prune — by the flow of one check or
by the periodic sweep — ever drops one of them). -/
theorem admit_phase (k : String) (T : Int) :
    ∀ (as done : List Int) (s : RateLimiter),
      s.log k = done →
      s.max_requests = done.length + as.length →
      (∀ x ∈ done ++ as, T - windowDuration < x ∧ x ≤ T) →
      (runTrace s (as.map (fun t => (k, t)))).1 = List.replicate as.length true
      ∧ (runTrace s (as.map (fun t => (k, t)))).2.log k = done ++ as
      ∧ (runTrace s (as.map (fun t => (k, t)))).2.max_requests = s.max_requests := by
  intro as
  induction as with
  | nil =>
    intro done s hlog hmax h
    simp [runTrace, hlog]
  | cons t as ih =>
    intro done s hlog hmax h
    have hT : T - windowDuration < t ∧ t ≤ T :=
      h t (by simp)
    have hdone : ∀ x ∈ done, T - windowDuration < x ∧ x ≤ T :=
      fun x hx => h x (by simp [hx])
    have hprune : pruneLog t done = done := by
      apply pruneLog_eq_self
      intro a ha
      have h1 := (hdone a ha).1
      have h2 := hT.2
      omega
    have hadm : (pruneLog t (s.log k)).length < s.max_requests := by
      rw [hlog, hprune, hmax]
      simp only [List.length_cons]
      omega
    have hb : (is_allowed s k t).1 = true := by
      rw [is_allowed_fst]
      simp [hadm]
    have hlog' : (is_allowed s k t).2.log k = done ++ [t] := by
      rw [is_allowed_log_self, if_pos hadm, hlog, hprune]
    have hmax' : (is_allowed s k t).2.max_requests = s.max_requests :=
      is_allowed_max s k t
    have hmax'' : (is_allowed s k t).2.max_requests
        = (done ++ [t]).length + as.length := by
      rw [hmax', hmax]
      simp
      omega
    have hmem : ∀ x ∈ (done ++ [t]) ++ as, T - windowDuration < x ∧ x ≤ T := by
      intro x hx
      apply h
      simp at hx ⊢
      tauto
    have ih' := ih (done ++ [t]) (is_allowed s k t).2 hlog' hmax'' hmem
    simp only [List.map_cons, runTrace]
    refine ⟨?_, ?_, ?_⟩
    · rw [hb, ih'.1]
      simp [List.replicate_succ]
    · rw [ih'.2.1]
      simp
    · rw [ih'.2.2, hmax']

/-- Reject phase: with key `k`'s log full (length equal to `max_requests`)
and every stored timestamp still inside the window of every reject
instant, every call of `rs` is Rejected and the log is left exactly as it
was — no timestamp is appended. -/
theorem reject_phase (k : String) :
    ∀ (rs : List Int) (s : RateLimiter) (full : List Int),
      s.log k = full →
      s.max_requests = full.length →
      (∀ r ∈ rs, ∀ a ∈ full, r - windowDuration < a) →
      (runTrace s (rs.map (fun t => (k, t)))).1 = List.replicate rs.length false
      ∧ (runTrace s (rs.map (fun t => (k, t)))).2.log k = full
      ∧ (runTrace s (rs.map (fun t => (k, t)))).2.max_requests = s.max_requests := by
  intro rs
  induction rs with
  | nil =>
    intro s full hlog hmax h
    simp [runTrace, hlog]
  | cons r rs ih =>
    intro s full hlog hmax h
    have hprune : pruneLog r full = full :=
      pruneLog_eq_self (fun a ha => h r (by simp) a ha)
    have hrej : ¬ (pruneLog r (s.log k)).length < s.max_requests := by
      rw [hlog, hprune, hmax]
      simp
    have hb : (is_allowed s k r).1 = false := by
      rw [is_allowed_fst]
      simp [hrej]
    have hlog' : (is_allowed s k r).2.log k = full := by
      rw [is_allowed_log_self, if_neg hrej, hlog, hprune]
    have hmax' : (is_allowed s k r).2.max_requests = s.max_requests :=
      is_allowed_max s k r
    have ih' := ih (is_allowed s k r).2 full hlog'
      (by rw [hmax', hmax]) (fun x hx => h x (by simp [hx]))
    simp only [List.map_cons, runTrace]
    refine ⟨?_, ?_, ?_⟩
    · rw [hb, ih'.1]
      simp [List.replicate_succ]
    · exact ih'.2.1
    · rw [ih'.2.2, hmax']

/-- C2: a Rejected check appends no timestamp — the resulting log for the
key is exactly the prune of the stored log — and consequently, after
`max_requests` admits (all inside the half-open window ending at the last
admit instant `T`) followed by any number of rejects (each issued while
every admitted timestamp is still inside its window), a request issued a
full `windowDuration` after the last admit is Admitted: the rejects
neither consumed nor extended quota. -/
theorem C2_rejected_not_counted (s : RateLimiter) (k : String)
    (as rs : List Int) (T : Int)
    (hm : s.max_requests = as.length)
    (hpos : as ≠ [])
    (hempty : s.log k = [])
    (hlast : as.getLast? = some T)
    (has : ∀ a ∈ as, T - windowDuration < a ∧ a ≤ T)
    (hrs : ∀ r ∈ rs, ∀ a ∈ as, r - windowDuration < a) :
    (∀ (s' : RateLimiter) (k' : String) (t' : Int),
        (is_allowed s' k' t').1 = false →
        (is_allowed s' k' t').2.log k' = pruneLog t' (s'.log k'))
    ∧ (runTrace s (as.map (fun t => (k, t))
          ++ (rs.map (fun t => (k, t)) ++ [(k, T + windowDuration)]))).1
      = List.replicate as.length true
          ++ (List.replicate rs.length false ++ [true]) := by
  constructor
  · intro s' k' t' hf
    rw [is_allowed_fst] at hf
    have hrej : ¬ (pruneLog t' (s'.log k')).length < s'.max_requests :=
      of_decide_eq_false hf
    rw [is_allowed_log_self, if_neg hrej]
  · have hphase1 := admit_phase k T as [] s hempty (by simpa using hm)
      (by simpa using has)
    have h1log : (runTrace s (as.map (fun t => (k, t)))).2.log k = as := by
      simpa using hphase1.2.1
    have h1max : (runTrace s (as.map (fun t => (k, t)))).2.max_requests
        = as.length := by
      rw [hphase1.2.2, hm]
    have hphase2 := reject_phase k rs (runTrace s (as.map (fun t => (k, t)))).2
      as h1log h1max hrs
    have h2log : (runTrace (runTrace s (as.map (fun t => (k, t)))).2
        (rs.map (fun t => (k, t)))).2.log k = as := hphase2.2.1
    have h2max : (runTrace (runTrace s (as.map (fun t => (k, t)))).2
        (rs.map (fun t => (k, t)))).2.max_requests = as.length := by
      rw [hphase2.2.2, h1max]
    have hpr : pruneLog (T + windowDuration) as = [] :=
      pruneLog_eq_nil (fun a ha => by have h2 := (has a ha).2; omega)
    have hfin : (is_allowed (runTrace (runTrace s (as.map (fun t => (k, t)))).2
        (rs.map (fun t => (k, t)))).2 k (T + windowDuration)).1 = true := by
      rw [is_allowed_fst, h2log, hpr, h2max]
      simp only [List.length_nil, decide_eq_true_eq]
      exact List.length_pos.2 hpos
    rw [(runTrace_append (as.map (fun t => (k, t)))
        (rs.map (fun t => (k, t)) ++ [(k, T + windowDuration)]) s).1]
    rw [hphase1.1]
    rw [(runTrace_append (rs.map (fun t => (k, t))) [(k, T + windowDuration)]
        (runTrace s (as.map (fun t => (k, t)))).2).1]
    rw [hphase2.1]
    simp only [runTrace, hfin]

/-- C2, witness: with `max_requests = 3`, admits at 0,1,2, rejects at 3 and
5, and a final Admitted call at `2 + windowDuration`. -/
theorem C2_rejected_not_counted_witness :
    (runTrace (initLimiter 3 0)
      ([(0 : Int), 1, 2].map (fun t => ("9.9.9.9", t))
        ++ ([(3 : Int), 5].map (fun t => ("9.9.9.9", t))
            ++ [("9.9.9.9", 2 + windowDuration)]))).1
      = List.replicate 3 true ++ (List.replicate 2 false ++ [true]) :=
  (C2_rejected_not_counted (initLimiter 3 0) "9.9.9.9" [0, 1, 2] [3, 5] 2
    (by decide) (by decide) (by decide) (by decide) (by decide) (by decide)).2

/-- C5, counterexample to the claim as stated: a check for key `"a"` that
triggers the periodic sweep (more than `sweepInterval` since
`last_cleanup`) mutates ANOTHER key's entry: `"b"` held the stale
timestamp 0 and is removed from the mapping by the sweep run inside the
check for `"a"`. -/
theorem C5_frame_cex :
    ("b" : String) ≠ "a"
    ∧ (is_allowed ⟨30, fun x => if x = "b" then some [(0 : Int)] else none, 0⟩
          "a" 400).2.requests "b"
        ≠ (⟨30, fun x => if x = "b" then some [(0 : Int)] else none, 0⟩
            : RateLimiter).requests "b" := by decide

/-- C5, amended: a check with key `k` preserves `max_requests` always; when
it does NOT trigger the periodic sweep it leaves every other key's entry
and `last_cleanup` unchanged — it mutates the state for the given key
only; when the sweep triggers, another key's entry is at most pruned
against the current window (or removed when the pruned log is empty),
never extended. -/
theorem C5_frame (rl : RateLimiter) (k k' : String) (now : Int) (h : k' ≠ k) :
    (is_allowed rl k now).2.max_requests = rl.max_requests
    ∧ (¬ sweepInterval < now - rl.last_cleanup →
        (is_allowed rl k now).2.requests k' = rl.requests k'
        ∧ (is_allowed rl k now).2.last_cleanup = rl.last_cleanup)
    ∧ (sweepInterval < now - rl.last_cleanup →
        (is_allowed rl k now).2.requests k' = none
        ∨ (is_allowed rl k now).2.requests k'
            = some (pruneLog now (getLogM rl.requests k'))) := by
  refine ⟨is_allowed_max rl k now, ?_, ?_⟩
  · intro hsw
    constructor
    · rw [is_allowed_requests_other rl k k' now h, if_neg hsw]
    · rw [is_allowed_last_cleanup, if_neg hsw]
  · intro hsw
    rw [is_allowed_requests_other rl k k' now h, if_pos hsw]
    simp only [cleanup_old_entries, getLogM]
    cases rl.requests k' with
    | none => left; rfl
    | some l =>
      by_cases he : pruneLog now l = []
      · left
        simp [he]
      · right
        simp [he]

/-- C5, witness: a check for `"a"` at instant 10 (sweep not triggered)
leaves key `"b"`'s entry and `last_cleanup` unchanged. -/
theorem C5_frame_witness :
    (¬ sweepInterval < (10 : Int) - (⟨30, fun x => if x = "b" then some [(0 : Int)] else none, 0⟩
        : RateLimiter).last_cleanup)
    ∧ ((is_allowed ⟨30, fun x => if x = "b" then some [(0 : Int)] else none, 0⟩
          "a" 10).2.requests "b"
        = (⟨30, fun x => if x = "b" then some [(0 : Int)] else none, 0⟩
            : RateLimiter).requests "b"
      ∧ (is_allowed ⟨30, fun x => if x = "b" then some [(0 : Int)] else none, 0⟩
          "a" 10).2.last_cleanup
        = (⟨30, fun x => if x = "b" then some [(0 : Int)] else none, 0⟩
            : RateLimiter).last_cleanup) :=
  ⟨by decide,
   (C5_frame ⟨30, fun x => if x = "b" then some [(0 : Int)] else none, 0⟩
     "a" "b" 10 (by decide)).2.1 (by decide)⟩

/-- C6, counterexample to the claim as stated: an EMPTY host string is not
mapped to the sentinel — the derivation passes it through unchanged, so
the guard is invoked with the empty key, not with `"unknown"`. -/
theorem C6_sentinel_cex :
    deriveClientKey (some "") = "" ∧ deriveClientKey (some "") ≠ "unknown" := by
  decide

/-- C6, amended: when no source address can be derived
(`request.client` is `None`) the guard is invoked with the fixed sentinel
key `"unknown"`; a present host string — even the empty one — is used as
the key unchanged.  In neither case is the key rejected as invalid or an
error raised: against a fresh limiter with positive capacity any derived
key is Admitted, and `check_rate_limit` fails only with the quota error
429, exactly when the guard rejects. -/
theorem C6_sentinel :
    deriveClientKey none = "unknown"
    ∧ (∀ h : String, deriveClientKey (some h) = h)
    ∧ (∀ (m : Nat) (lc t : Int) (client : Option String), 0 < m →
        (is_allowed (initLimiter m lc) (deriveClientKey client) t).1 = true)
    ∧ (∀ (rl : RateLimiter) (client : Option String) (now : Int),
        check_rate_limit rl client now = Except.error 429
          ↔ (is_allowed rl (deriveClientKey client) now).1 = false) := by
  refine ⟨rfl, fun h => rfl, ?_, ?_⟩
  · intro m lc t client hm
    rw [is_allowed_fst]
    have hlog : (initLimiter m lc).log (deriveClientKey client) = [] := rfl
    rw [hlog, pruneLog_nil]
    simpa using hm
  · intro rl client now
    simp only [check_rate_limit]
    cases hr : (is_allowed rl (deriveClientKey client) now).1
    · simp [hr]
    · simp [hr]

/-- C6, witness: with no client address the guard runs under the sentinel
key and a fresh limiter of capacity 30 admits the request. -/
theorem C6_sentinel_witness :
    (0 < 30)
    ∧ (is_allowed (initLimiter 30 0) (deriveClientKey none) 5).1 = true :=
  ⟨by decide, C6_sentinel.2.2.1 30 0 5 none (by decide)⟩

/-- C7: the sweep runs during a check exactly when more than
`sweepInterval` (300 seconds) has elapsed since `last_cleanup` — then
`last_cleanup` is updated to `now`, otherwise it and every other key's
entry are untouched; when it runs, every other tracked key's entry is
pruned against the current window and removed from the mapping exactly
when the pruned log is empty. -/
theorem C7_sweep (rl : RateLimiter) (k k' : String) (now : Int) (h : k' ≠ k) :
    ((is_allowed rl k now).2.last_cleanup
        = if sweepInterval < now - rl.last_cleanup then now else rl.last_cleanup)
    ∧ (sweepInterval < now - rl.last_cleanup →
        (is_allowed rl k now).2.requests k'
          = (match rl.requests k' with
             | none => none
             | some l => if pruneLog now l = [] then none
                         else some (pruneLog now l)))
    ∧ (¬ sweepInterval < now - rl.last_cleanup →
        (is_allowed rl k now).2.requests k' = rl.requests k') := by
  refine ⟨is_allowed_last_cleanup rl k now, ?_, ?_⟩
  · intro hsw
    rw [is_allowed_requests_other rl k k' now h, if_pos hsw]
    rfl
  · intro hsw
    rw [is_allowed_requests_other rl k k' now h, if_neg hsw]

/-- C7, witness: a check for `"a"` at instant 400 with `last_cleanup = 0`
triggers the sweep; key `"b"`'s log `[0, 395]` is pruned to `[395]`. -/
theorem C7_sweep_witness :
    sweepInterval < (400 : Int)
        - (⟨30, fun x => if x = "b" then some [(0 : Int), 395] else none, 0⟩
            : RateLimiter).last_cleanup
    ∧ (is_allowed ⟨30, fun x => if x = "b" then some [(0 : Int), 395] else none, 0⟩
        "a" 400).2.requests "b" = some [395] :=
  ⟨by decide, by
    have h := (C7_sweep
      ⟨30, fun x => if x = "b" then some [(0 : Int), 395] else none, 0⟩
      "a" "b" 400 (by decide)).2.1 (by decide)
    rw [h]
    decide⟩

/-! ### The sweep is advisory -/

/-- Simulation between the rate_limit.py limiter (with inline sweep) and
the main.py limiter (without): if at every horizon from `t0` on the two
states hold the same pruned log for every key, then a sequential,
time-ordered trace of checks yields the same decisions in both.  The sweep
only re-prunes logs and drops entries that prune to empty, which the next
prune of each check performs anyway. -/
theorem sweep_advisory_aux (trace : List (String × Int)) :
    ∀ (s : RateLimiter) (ns : RateLimiterNS) (t0 : Int),
      s.max_requests = ns.max_requests →
      (∀ p ∈ trace, t0 ≤ p.2) →
      List.Pairwise (· ≤ ·) (trace.map Prod.snd) →
      (∀ (k : String) (t' : Int), t0 ≤ t' →
        pruneLog t' (s.log k) = pruneLog t' (getLogM ns.requests k)) →
      (runTrace s trace).1 = (runTraceNS ns trace).1 := by
  induction trace with
  | nil => intros; rfl
  | cons p rest ih =>
    obtain ⟨k1, t1⟩ := p
    intro s ns t0 hmax hlb hpw hinv
    have ht01 : t0 ≤ t1 := hlb (k1, t1) (List.mem_cons_self _ _)
    have hcur : pruneLog t1 (s.log k1) = pruneLog t1 (getLogM ns.requests k1) :=
      hinv k1 t1 ht01
    have hdec : (is_allowed s k1 t1).1 = (is_allowed_ns ns k1 t1).1 := by
      rw [is_allowed_fst, is_allowed_ns_fst, RateLimiter.log] at *
      rw [hcur, hmax]
    have hpwmap : List.Pairwise (· ≤ ·) (t1 :: rest.map Prod.snd) := by
      simpa using hpw
    have hpw' : List.Pairwise (· ≤ ·) (rest.map Prod.snd) :=
      (List.pairwise_cons.1 hpwmap).2
    have hhd : ∀ q ∈ rest, t1 ≤ q.2 := by
      intro q hq
      exact (List.pairwise_cons.1 hpwmap).1 q.2 (List.mem_map_of_mem _ hq)
    have hmax' : (is_allowed s k1 t1).2.max_requests
        = (is_allowed_ns ns k1 t1).2.max_requests := by
      rw [is_allowed_max, is_allowed_ns_max, hmax]
    have hinv' : ∀ (k : String) (t' : Int), t1 ≤ t' →
        pruneLog t' ((is_allowed s k1 t1).2.log k)
          = pruneLog t' (getLogM (is_allowed_ns ns k1 t1).2.requests k) := by
      intro k t' ht'
      by_cases hk : k = k1
      · subst hk
        have hs := is_allowed_log_self s k t1
        have hn := is_allowed_ns_log_self ns k t1
        show pruneLog t' ((is_allowed s k t1).2.log k)
          = pruneLog t' (getLogM (is_allowed_ns ns k t1).2.requests k)
        rw [hs, hn, hcur, hmax]
      · have hns : getLogM (is_allowed_ns ns k1 t1).2.requests k
            = getLogM ns.requests k := by
          unfold getLogM
          rw [is_allowed_ns_requests_other ns k1 k t1 hk]
        rcases is_allowed_log_other s k1 k t1 hk with hsame | hpruned
        · show pruneLog t' (getLogM (is_allowed s k1 t1).2.requests k)
            = pruneLog t' (getLogM (is_allowed_ns ns k1 t1).2.requests k)
          rw [hsame, hns]
          exact hinv k t' (le_trans ht01 ht')
        · show pruneLog t' (getLogM (is_allowed s k1 t1).2.requests k)
            = pruneLog t' (getLogM (is_allowed_ns ns k1 t1).2.requests k)
          rw [hpruned, hns, pruneLog_pruneLog ht']
          exact hinv k t' (le_trans ht01 ht')
    simp only [runTrace, runTraceNS]
    rw [hdec, ih (is_allowed s k1 t1).2 (is_allowed_ns ns k1 t1).2 t1
      hmax' hhd hpw' hinv']

/-- C8: the sweep is advisory, not load-bearing.  With identical
`max_requests` and identical request maps, a sequential trace of checks
with non-decreasing instants produces exactly the same Admitted/Rejected
decisions under the rate_limit.py limiter (which interleaves periodic
sweeps inside its checks) and under the main.py limiter (which never
sweeps): removing a key whose log emptied, or pruning other keys early,
changes no decision — a fresh check for a removed key behaves as if the
key had never been removed. -/
theorem C8_sweep_advisory (trace : List (String × Int)) (m : Nat)
    (req : ReqMap) (lc : Int)
    (hpw : List.Pairwise (· ≤ ·) (trace.map Prod.snd)) :
    (runTrace ⟨m, req, lc⟩ trace).1 = (runTraceNS ⟨m, req⟩ trace).1 := by
  cases trace with
  | nil => rfl
  | cons p rest =>
    obtain ⟨k1, t1⟩ := p
    have hpwmap : List.Pairwise (· ≤ ·) (t1 :: rest.map Prod.snd) := by
      simpa using hpw
    apply sweep_advisory_aux ((k1, t1) :: rest) ⟨m, req, lc⟩ ⟨m, req⟩ t1 rfl
    · intro q hq
      rcases List.mem_cons.1 hq with hq1 | hq2
      · rw [hq1]
      · exact (List.pairwise_cons.1 hpwmap).1 q.2 (List.mem_map_of_mem _ hq2)
    · exact hpw
    · intro k t' _
      rfl

/-- C8, witness: a concrete time-ordered trace crossing the sweep trigger
(final check at instant 400 with `last_cleanup = 0`) receives the same
decisions from both variants. -/
theorem C8_sweep_advisory_witness :
    List.Pairwise (· ≤ ·)
      (([("a", (0 : Int)), ("a", 1), ("b", 100), ("a", 400)].map Prod.snd))
    ∧ (runTrace ⟨2, fun _ => none, 0⟩
         [("a", 0), ("a", 1), ("b", 100), ("a", 400)]).1
      = (runTraceNS ⟨2, fun _ => none⟩
         [("a", 0), ("a", 1), ("b", 100), ("a", 400)]).1 :=
  ⟨by decide,
   C8_sweep_advisory [("a", 0), ("a", 1), ("b", 100), ("a", 400)]
     2 (fun _ => none) 0 (by decide)⟩

/-! ### Log-length invariant -/

/-- Any state in which every key's log is within capacity keeps that
property along any sequence of checks: a prune only shortens a log and an
append happens only below capacity. -/
theorem log_bound_aux (trace : List (String × Int)) :
    ∀ s : RateLimiter,
      (∀ k, (s.log k).length ≤ s.max_requests) →
      ∀ k, ((runTrace s trace).2.log k).length
        ≤ (runTrace s trace).2.max_requests := by
  induction trace with
  | nil =>
    intro s h k
    simpa [runTrace] using h k
  | cons p rest ih =>
    obtain ⟨k1, t1⟩ := p
    intro s h k
    simp only [runTrace]
    apply ih
    intro k'
    rw [is_allowed_max]
    by_cases hk : k' = k1
    · subst hk
      rw [is_allowed_log_self]
      by_cases hadm : (pruneLog t1 (s.log k')).length < s.max_requests
      · rw [if_pos hadm]
        simp only [List.length_append, List.length_singleton]
        omega
      · rw [if_neg hadm]
        calc (pruneLog t1 (s.log k')).length
            ≤ (s.log k').length := length_pruneLog_le _ _
          _ ≤ s.max_requests := h k'
    · rcases is_allowed_log_other s k1 k' t1 hk with hsame | hpr
      · show (getLogM (is_allowed s k1 t1).2.requests k').length ≤ s.max_requests
        rw [hsame]
        exact h k'
      · show (getLogM (is_allowed s k1 t1).2.requests k').length ≤ s.max_requests
        rw [hpr]
        calc (pruneLog t1 (getLogM s.requests k')).length
            ≤ (getLogM s.requests k').length := length_pruneLog_le _ _
          _ ≤ s.max_requests := h k'

/-- C10: starting from the empty limiter state, after every sequence of
checks every key's log has length at most `max_requests`; and whenever a
further check returns Rejected, that key's pruned log — which is exactly
the log left in the post-state for that key — has length exactly
`max_requests` at the moment of the decision. -/
theorem C10_log_length_invariant (m : Nat) (t0 : Int)
    (trace : List (String × Int)) :
    (∀ k, ((runTrace (initLimiter m t0) trace).2.log k).length ≤ m)
    ∧ (∀ (k : String) (t : Int),
        (is_allowed (runTrace (initLimiter m t0) trace).2 k t).1 = false →
        ((is_allowed (runTrace (initLimiter m t0) trace).2 k t).2.log k).length
          = m) := by
  have hinv0 : ∀ k, ((initLimiter m t0).log k).length
      ≤ (initLimiter m t0).max_requests := by
    intro k
    simp [initLimiter, RateLimiter.log, getLogM]
  have hinv := log_bound_aux trace (initLimiter m t0) hinv0
  have hmax : (runTrace (initLimiter m t0) trace).2.max_requests = m :=
    runTrace_max trace (initLimiter m t0)
  constructor
  · intro k
    have h1 := hinv k
    rwa [hmax] at h1
  · intro k t hf
    rw [is_allowed_fst] at hf
    have hrej : ¬ (pruneLog t ((runTrace (initLimiter m t0) trace).2.log k)).length
        < (runTrace (initLimiter m t0) trace).2.max_requests :=
      of_decide_eq_false hf
    rw [is_allowed_log_self, if_neg hrej]
    have h1 : (pruneLog t ((runTrace (initLimiter m t0) trace).2.log k)).length
        ≤ ((runTrace (initLimiter m t0) trace).2.log k).length :=
      length_pruneLog_le _ _
    have h2 := hinv k
    rw [hmax] at hrej h2
    omega

/-- C10, witness: with capacity 1, after one admitted check the next check
for the same key is Rejected and the key's log length equals 1. -/
theorem C10_log_length_invariant_witness :
    ((is_allowed (runTrace (initLimiter 1 0) [("a", 0)]).2 "a" 1).1 = false)
    ∧ ((is_allowed (runTrace (initLimiter 1 0) [("a", 0)]).2 "a" 1).2.log "a").length
        = 1 :=
  ⟨by decide, (C10_log_length_invariant 1 0 [("a", 0)]).2 "a" 1 (by decide)⟩
